import Mathlib

/-!
Verification of the attendance reconciliation and classification engine of the
Finger-Scanner-ZKTeco-Wrapper repository.

This file shallowly embeds `src/adms_wrapper/core/data_processing.py` (and the
Sunday filter of `src/adms_wrapper/core/excel_logic.py`) in Lean:

* timestamps are `Int` values counting seconds since the epoch; a calendar day
  is `timestamp.ediv 86400`, and `pandas.Timestamp.date()` / `weekday()` are
  modelled on those day numbers (day 0, 1970-01-01, is a Thursday, weekday 3
  with Monday = 0, so a day `d` is a Sunday exactly when `d.emod 7 = 3`);
* database reads (`get_setting`, shift mappings, the employee roster) are
  passed in explicitly as values; `get_setting` returns the stored string or
  `""` when the key is absent (see `db_queries.get_setting`), so settings are
  plain strings with `""` meaning "unset";
* Python code that can raise an uncaught exception is modelled in
  `Except Unit`; the only uncaught raise sites in the embedded engine are the
  `pd.to_datetime(...).time()` parses of stored shift times (a stored `None`
  or an unparseable string raises), which is reflected by
  `parseStored` returning `none` there;
* `pd.to_datetime(s).time()` on the strings produced by `get_shift_mappings`
  (always "%H:%M:%S") is modelled by `parseTimeStr`, which accepts
  `H:MM[:SS]` wall-clock strings and rejects everything else;
* Python `int(s)` is modelled by `pyToInt` (trimmed optional-sign decimal).
-/

namespace ADMS

/-- Seconds in one day. -/
def secondsPerDay : Int := 86400

/-- Model of `SUNDAY_WEEKDAY = 6` with Monday = 0; day 0 (1970-01-01) is a Thursday,
so day `d` is a Sunday iff `d ≡ 3 [ZMOD 7]`.  Model of
`data_processing.is_weekend` composed with `Timestamp.date()`. -/
def isSunday (d : Int) : Bool := d.emod 7 == 3

/-- Strip leading and trailing whitespace from a character list. -/
def stripWs (l : List Char) : List Char :=
  ((l.dropWhile Char.isWhitespace).reverse.dropWhile Char.isWhitespace).reverse

/-- Model of Python `str.strip()`. -/
def pyStrip (s : String) : String := String.mk (stripWs s.toList)

/-- A non-empty all-digit field, as a number. -/
def digitsToNat (l : List Char) : Option Nat :=
  if l ≠ [] ∧ l.all (fun c => c.isDigit) then
    some (l.foldl (fun n c => 10 * n + (c.toNat - 48)) 0)
  else none

/-- Model of Python `int(s)` on a string: strip whitespace, optional sign,
decimal digits; `none` models an uncaught `ValueError`. -/
def pyToInt (s : String) : Option Int :=
  match stripWs s.toList with
  | '-' :: rest => (digitsToNat rest).map (fun n => -(n : Int))
  | '+' :: rest => (digitsToNat rest).map (fun n => (n : Int))
  | l => (digitsToNat l).map (fun n => (n : Int))

/-- Model of `int(get_setting(k) or d)`: an unset setting (`""`, falsy)
falls back to the literal default, a set one must parse. -/
def intOr (s : String) (d : Int) : Option Int := if s = "" then some d else pyToInt s

/-- Split a character list on the colon separator (how a wall-clock string
is cut into fields). -/
def splitColon (l : List Char) : List (List Char) :=
  l.foldr
    (fun c acc =>
      if c = ':' then [] :: acc
      else
        match acc with
        | [] => [[c]]
        | h :: t => (c :: h) :: t)
    [[]]

/-- Model of `pd.to_datetime(s).time()` for the wall-clock strings the
pipeline stores ("%H:%M:%S", also `H:MM`), as seconds since midnight;
`none` models the uncaught parse exception on garbage. -/
def parseTimeStr (s : String) : Option Int :=
  match splitColon s.toList with
  | [hs, ms] => do
    let h ← digitsToNat hs
    let m ← digitsToNat ms
    if h < 24 ∧ m < 60 then some ((3600 * h + 60 * m : Nat) : Int) else none
  | [hs, ms, secs] => do
    let h ← digitsToNat hs
    let m ← digitsToNat ms
    let sec ← digitsToNat secs
    if h < 24 ∧ m < 60 ∧ sec < 60 then some ((3600 * h + 60 * m + sec : Nat) : Int) else none
  | _ => none

/-- A stored shift time is `None` or a string (`_to_time_str` output);
`pd.to_datetime(None).time()` raises (`NaT` has no `time()`), as does an
unparseable string, so both are `none`. -/
def parseStored (v : Option String) : Option Int :=
  match v with
  | none => none
  | some s => parseTimeStr s

/-- Is `a` a contiguous substring of `b`?  Model of Python `a in b` on
strings (note: `x in ("zero")` in the source is exactly this with
`b = "zero"`, because `("zero")` is a string, not a tuple). -/
def isSubstrOf (a b : String) : Bool :=
  b.toList.tails.any (fun t => a.toList.isPrefixOf t)

/-- Model of Python `str.lower()` (ASCII case folding suffices for the
setting values compared here). -/
def pyLower (s : String) : String := String.mk (s.toList.map Char.toLower)

/-- Two-digit zero padding, as in Python `f"{n:02d}"` for `n ≥ 0`. -/
def pad2 (n : Nat) : String := if n < 10 then "0" ++ toString n else toString n

/-- Model of `_format_timedelta`: negative durations clamp to the literal
`"0:00:00"`, otherwise `HH:MM:SS` with two-digit fields. -/
def formatTd (t : Int) : String :=
  if t < 0 then "0:00:00"
  else
    let n := t.toNat
    pad2 (n / 3600) ++ ":" ++ pad2 (n % 3600 / 60) ++ ":" ++ pad2 (n % 60)

/-- The settings the engine reads, as returned by `get_setting` (the stored
string, or `""` when the key is absent). -/
structure Settings where
  shift_cap_hours : String := ""
  late_checkout_grace_minutes : String := ""
  shift_cap_type : String := ""
  zero_hours_when_capped : String := ""
deriving DecidableEq

/-- One value of the `get_shift_mappings()` dictionary. -/
structure ShiftEntry where
  shift_name : String := ""
  shift_start : Option String := none
  shift_end : Option String := none
deriving DecidableEq

/-- Model of `shift_dict.get(emp) or shift_dict.get("default")` (an entry is
a non-empty dict, hence truthy). -/
def lookupShift (sd : List (String × ShiftEntry)) (emp : String) : Option ShiftEntry :=
  (sd.lookup emp).orElse (fun _ => sd.lookup "default")

/-- Joint parse of the grace/cap settings: in the source both `int(...)`
conversions sit in one `try`, so if either raises both fall back to their
defaults (grace 15, cap 8). -/
def graceCapOf (stg : Settings) : Int × Int :=
  match intOr stg.late_checkout_grace_minutes 15, intOr stg.shift_cap_hours 8 with
  | some g, some c => (g, c)
  | _, _ => (15, 8)

/-- Model of `int(get_setting("shift_cap_hours") or 8)` with its own `try` block. -/
def capOnlyOf (stg : Settings) : Int :=
  (intOr stg.shift_cap_hours 8).getD 8

/-- Model of `end_time += timedelta(days=1)` when `end_time <= start_time`. -/
def adjustEnd (st : Int) (en : Option Int) : Option Int :=
  match en with
  | none => none
  | some e => some (if e ≤ st then e + secondsPerDay else e)

/-- Model of `shift_start_dt = pd.to_datetime(...)` anchored to the row day. -/
def shiftStartDtOf (day ssTod : Int) : Int := day * secondsPerDay + ssTod

/-- Model of `shift_end_dt`, pushed to the next day when `shift_end_dt <= shift_start_dt`
(midnight-crossing shift). -/
def shiftEndDtOf (day ssTod seTod : Int) : Int :=
  let e := day * secondsPerDay + seTod
  if e ≤ day * secondsPerDay + ssTod then e + secondsPerDay else e

/-- Model of `cap_deadline = shift_end_dt + grace_minutes + cap_hours`. -/
def capDeadlineShift (day ssTod seTod grace cap : Int) : Int :=
  shiftEndDtOf day ssTod seTod + grace * 60 + cap * 3600

/-- A day-level record of the summary (one row of the `worked_summary` /
`complete_records` DataFrames, with the columns the engine populates). -/
structure Rec where
  employee_id : String
  day : Int
  start_time : Option Int
  end_time : Option Int
  start_device_sn : String
  end_device_sn : String
  time_spent : String
  work_status : String
  no_checkout : Bool
  early_checkout : Bool
  shift_flag : String
  late_in : Bool
deriving DecidableEq

/-- The cap deadline classification uses for a row: the shift-anchored
deadline `shift_end + grace + cap` when a shift resolves (and its times
parse), else `start + cap_hours` (the value is irrelevant when parsing
fails, since classification raises there). -/
def capDeadlineOf (r : Rec) (sd : List (String × ShiftEntry)) (stg : Settings) (st : Int) :
    Int :=
  match lookupShift sd r.employee_id with
  | some si =>
    match parseStored si.shift_start, parseStored si.shift_end with
    | some ssTod, some seTod =>
      capDeadlineShift r.day ssTod seTod (graceCapOf stg).1 (graceCapOf stg).2
    | _, _ => 0
  | none => st + capOnlyOf stg * 3600

/-- The six-tuple returned by `calculate_time_spent_and_flag`. -/
structure ClassResult where
  time_spent : String
  no_checkout : Bool
  early_checkout : Bool
  end_time_to_use : Option Int
  shift_flag : String
  late_in : Bool
deriving DecidableEq

/-- Shallow embedding of `calculate_time_spent_and_flag` (data_processing.py,
lines 59-203).  `Except.error ()` marks the points where the Python function
raises an uncaught exception (the two stored-shift-time parses). -/
def calculateTimeSpentAndFlag (row : Rec) (sd : List (String × ShiftEntry))
    (stg : Settings) : Except Unit ClassResult :=
  match row.start_time with
  | none => .ok ⟨"0:00:00", false, false, row.end_time, "absent", false⟩
  | some st =>
    let en := adjustEnd st row.end_time
    if isSunday row.day then
      match en with
      | none => .ok ⟨"0:00:00", true, false, none, "weekend", false⟩
      | some e => .ok ⟨formatTd (e - st), false, false, some e, "weekend", false⟩
    else
      match lookupShift sd row.employee_id with
      | some si =>
        match parseStored si.shift_start, parseStored si.shift_end with
        | some ssTod, some seTod =>
          let ssdt := shiftStartDtOf row.day ssTod
          let sedt := shiftEndDtOf row.day ssTod seTod
          let gc := graceCapOf stg
          let grace := gc.1
          let cap := gc.2
          -- late_in_grace_minutes is hardcoded to 15 in the source
          let is_late_in := decide (ssdt + 15 * 60 < st)
          let overtime_cutoff := sedt + grace * 60
          let cap_deadline := capDeadlineShift row.day ssTod seTod grace cap
          let is_capped := match en with | none => true | some e => decide (cap_deadline < e)
          let is_overtime :=
            (match en with | none => false | some e => decide (overtime_cutoff < e)) && !is_capped
          let should_zero := isSubstrOf (pyLower stg.shift_cap_type) "zero"
          let early_out := match en with | none => false | some e => decide (e < sedt)
          let shift_flag :=
            if is_capped then "no checkout"
            else if early_out then "early out"
            else if is_late_in then "late in"
            else if is_overtime then "overtime"
            else "normal"
          if is_capped then
            if should_zero then
              .ok ⟨"0:00:00", true, false, some cap_deadline, "no checkout", is_late_in⟩
            else
              let eff := min (en.getD cap_deadline) cap_deadline
              .ok ⟨formatTd (eff - st), true, false, some cap_deadline, "no checkout", is_late_in⟩
          else
            match en with
            | some e => .ok ⟨formatTd (e - st), false, early_out, some e, shift_flag, is_late_in⟩
            | none => .ok ⟨"0:00:00", false, early_out, none, shift_flag, is_late_in⟩
        | _, _ => .error ()
      | none =>
        let cap := capOnlyOf stg
        let capd := cap * 3600
        let cap_deadline := st + capd
        let is_capped := match en with | none => true | some e => decide (capd < e - st)
        let zwc := if stg.zero_hours_when_capped = "" then "true" else stg.zero_hours_when_capped
        let lz := pyLower zwc
        let should_zero := lz == "true" || lz == "1" || lz == "yes" || lz == "on"
        let shift_flag := if is_capped then "no checkout" else "normal"
        if is_capped then
          if should_zero then
            .ok ⟨"0:00:00", true, false, some cap_deadline, "no checkout", false⟩
          else
            .ok ⟨formatTd (min (en.getD cap_deadline) cap_deadline - st), true, false,
              some cap_deadline, "no checkout", false⟩
        else
          match en with
          | some e => .ok ⟨formatTd (e - st), false, false, some e, shift_flag, false⟩
          | none => .ok ⟨"0:00:00", false, false, none, shift_flag, false⟩

/-- One raw punch of one employee: its timestamp and device serial. -/
structure Punch where
  timestamp : Int
  sn : String
deriving DecidableEq

/-- A reconciled work session: a start punch and an optional checkout punch. -/
structure Session where
  startP : Punch
  endP : Option Punch
deriving DecidableEq

/-- Chronological order on punches (`sort_values("timestamp")`, stable). -/
def punchLE (a b : Punch) : Prop := a.timestamp ≤ b.timestamp

instance : DecidableRel punchLE := fun a b => inferInstanceAs (Decidable (a.timestamp ≤ b.timestamp))

instance : IsTotal Punch punchLE := ⟨fun a b => Int.le_total a.timestamp b.timestamp⟩

instance : IsTrans Punch punchLE := ⟨fun _ _ _ h1 h2 => le_trans h1 h2⟩

/-- Shallow embedding of the per-employee pairing loop of
`process_attendance_summary` (data_processing.py, lines 350-421), for a list
of punches already sorted ascending by timestamp and a boundary function
`bnd` giving the session boundary for a session starting at a given instant.

The source scans indices `j = i+1, i+2, ...`: punches `≤ st` are skipped,
the scan breaks at the first punch `≥ boundary`, and every punch in between
becomes the latest candidate.  On a sorted list the skipped punches are
exactly `rest.dropWhile (· ≤ st)` and the candidates are the following
`takeWhile (< boundary)` block, the chosen checkout is the last candidate,
and `i = candidate_index + 1` resumes right after that block, i.e. on
`after.dropWhile (< boundary)`.  With no candidate the source does `i += 1`,
i.e. recurses on `rest` itself.

The `fuel` argument only bounds the number of loop iterations; the source
loop needs at most one iteration per punch because the cursor `i` strictly
advances, so `reconcile` below runs it with fuel `ps.length`. -/
def reconcileGo (bnd : Int → Int) : Nat → List Punch → List Session
  | 0, _ => []
  | _ + 1, [] => []
  | fuel + 1, st :: rest =>
    let after := rest.dropWhile (fun p => p.timestamp ≤ st.timestamp)
    let cands := after.takeWhile (fun p => p.timestamp < bnd st.timestamp)
    match cands.getLast? with
    | none => ⟨st, none⟩ :: reconcileGo bnd fuel rest
    | some c =>
        ⟨st, some c⟩ :: reconcileGo bnd fuel
          (after.dropWhile (fun p => p.timestamp < bnd st.timestamp))

/-- The pairing loop on a sorted punch list. -/
def reconcile (bnd : Int → Int) (ps : List Punch) : List Session :=
  reconcileGo bnd ps.length ps

/-- The boundary used by the reconciliation loop (data_processing.py, lines
354-381): with a resolved shift, `min(cap_dt, next_shift_start_dt)` anchored
to the day of the start punch; with none, `st + cap_hours`.  Parsing the stored
shift times happens before any punch is paired; a failing parse is the
uncaught exception of the source loop. -/
def boundaryFun (shift? : Option ShiftEntry) (stg : Settings) : Except Unit (Int → Int) :=
  match shift? with
  | some si =>
    match parseStored si.shift_start, parseStored si.shift_end with
    | some ssTod, some seTod =>
      let gc := graceCapOf stg
      .ok (fun st =>
        let day := st.ediv secondsPerDay
        min (capDeadlineShift day ssTod seTod gc.1 gc.2) (shiftStartDtOf day ssTod + secondsPerDay))
    | _, _ => .error ()
  | none => .ok (fun st => st + capOnlyOf stg * 3600)

/-- The `worked_rows` entry built for one reconciled session (lines 395-421);
the classification columns are filled in afterwards. -/
def workedRowOf (emp : String) (s : Session) : Rec where
  employee_id := emp
  day := s.startP.timestamp.ediv secondsPerDay
  start_time := some s.startP.timestamp
  end_time := s.endP.map (fun p => p.timestamp)
  start_device_sn := s.startP.sn
  end_device_sn := match s.endP with | some c => c.sn | none => ""
  time_spent := ""
  work_status := "worked"
  no_checkout := false
  early_checkout := false
  shift_flag := ""
  late_in := false

/-- The synthesized absent-day record (lines 254-268 and 291-305). -/
def absentRec (emp : String) (d : Int) : Rec where
  employee_id := emp
  day := d
  start_time := none
  end_time := none
  start_device_sn := ""
  end_device_sn := ""
  time_spent := "0:00:00"
  work_status := "absent"
  no_checkout := false
  early_checkout := false
  shift_flag := "absent"
  late_in := false

/-- Model of `pd.date_range(start, end, freq="D")` as day numbers (inclusive, empty
when `e < s`). -/
def dayRange (s e : Int) : List Int :=
  (List.range (e + 1 - s).toNat).map (fun (i : Nat) => s + (i : Int))

/-- Model of `generate_absent_days_for_date_range` (lines 274-307); the
roster stands for `get_comprehensive_employee_data()`. -/
def generateAbsentDaysForDateRange (roster : List String) (s e : Int) : List Rec :=
  let allDays := (dayRange s e).filter (fun d => !isSunday d)
  roster.flatMap (fun emp => if emp = "" then [] else allDays.map (absentRec emp))

/-- Model of `_get_absent_days_fallback` (lines 310-320). -/
def absentFallback (roster : List String) (range? : Option (Int × Int)) : List Rec :=
  match range? with
  | some (s, e) => generateAbsentDaysForDateRange roster s e
  | none => []

/-- Fold-based minimum of a day list (`worked_summary["day"].min()`). -/
def minDay (l : List Int) : Int := l.foldl min ((l.head?).getD 0)

/-- Fold-based maximum of a day list (`worked_summary["day"].max()`). -/
def maxDay (l : List Int) : Int := l.foldl max ((l.head?).getD 0)

/-- Model of `generate_complete_records` (lines 224-271): for every employee
appearing in the worked summary and every non-Sunday day of the range, copy
the worked rows of that employee for that day, or synthesize one absent record if
there are none.  Employees with an empty id are skipped; with an empty
worked summary it falls back to roster-wide absent generation. -/
def generateCompleteRecords (roster : List String) (ws : List Rec)
    (range? : Option (Int × Int)) : List Rec :=
  match ws with
  | [] =>
    match range? with
    | some (s, e) => generateAbsentDaysForDateRange roster s e
    | none => []
  | _ =>
    let allDays :=
      match range? with
      | some (s, e) => dayRange s e
      | none =>
        dayRange (minDay (ws.map (fun (r : Rec) => r.day)))
          (maxDay (ws.map (fun (r : Rec) => r.day)))
    let days := allDays.filter (fun d => !isSunday d)
    let emps := (ws.map (fun (r : Rec) => r.employee_id)).dedup
    emps.flatMap (fun emp =>
      if emp = "" then []
      else
        let empData := ws.filter (fun (r : Rec) => r.employee_id = emp)
        days.flatMap (fun d =>
          let dayData := empData.filter (fun (r : Rec) => r.day = d)
          if dayData.isEmpty then [absentRec emp d] else dayData))

/-- Writing the classification results back into a worked row (lines
427-434). -/
def applyClass (sd : List (String × ShiftEntry)) (stg : Settings) (r : Rec) :
    Except Unit Rec :=
  (calculateTimeSpentAndFlag r sd stg).map (fun c =>
    { r with
      time_spent := c.time_spent
      no_checkout := c.no_checkout
      early_checkout := c.early_checkout
      end_time := c.end_time_to_use
      shift_flag := c.shift_flag
      late_in := c.late_in })

/-- One raw attendance entry handed to `process_attendance_summary`. -/
structure PunchEvent where
  employee_id : String
  timestamp : Int
  sn : String
deriving DecidableEq

/-- Lexicographic comparison of character lists by code point (the string `<` of Python). -/
def listCharLt : List Char → List Char → Bool
  | [], [] => false
  | [], _ :: _ => true
  | _ :: _, [] => false
  | a :: as, b :: bs =>
    if a.toNat < b.toNat then true
    else if a.toNat = b.toNat then listCharLt as bs
    else false

/-- Final `sort_values(["employee_id", "day"])` order. -/
def recLE (a b : Rec) : Prop :=
  listCharLt a.employee_id.toList b.employee_id.toList = true ∨
    (a.employee_id = b.employee_id ∧ a.day ≤ b.day)

instance : DecidableRel recLE := fun a b =>
  inferInstanceAs (Decidable (listCharLt a.employee_id.toList b.employee_id.toList = true ∨
    (a.employee_id = b.employee_id ∧ a.day ≤ b.day)))

/-- Shallow embedding of `process_attendance_summary` (lines 323-442):
normalize and filter employee ids, group punches per employee, sort each
group, reconcile it against the shift-derived boundary, classify every
worked row, complete the records over the reporting range, and sort.
`Except.error ()` is an uncaught exception (a failing stored-shift-time
parse). -/
def processAttendanceSummary (atts : List PunchEvent) (sd : List (String × ShiftEntry))
    (stg : Settings) (roster : List String) (range? : Option (Int × Int)) :
    Except Unit (List Rec) :=
  if atts.isEmpty then .ok (absentFallback roster range?)
  else
    let atts2 := (atts.map (fun a => { a with employee_id := pyStrip a.employee_id })).filter
      (fun a => a.employee_id ≠ "")
    if atts2.isEmpty then .ok (absentFallback roster range?)
    else do
      let emps := (atts2.map (fun a => a.employee_id)).dedup
      let grouped ← emps.mapM (fun emp => do
        let psE := (atts2.filter (fun a => a.employee_id = emp)).map
          (fun a => Punch.mk a.timestamp a.sn)
        let sorted := List.insertionSort punchLE psE
        let bnd ← boundaryFun (lookupShift sd emp) stg
        pure ((reconcile bnd sorted).map (workedRowOf emp)))
      let workedRows := grouped.flatten
      if workedRows.isEmpty then pure (absentFallback roster range?)
      else do
        let classified ← workedRows.mapM (applyClass sd stg)
        pure (List.insertionSort recLE (generateCompleteRecords roster classified range?))

instance {α β : Type} [DecidableEq α] [DecidableEq β] : DecidableEq (Except α β) := fun x y =>
  match x, y with
  | .error a, .error b =>
    if h : a = b then .isTrue (by rw [h]) else .isFalse (fun hh => by cases hh; exact h rfl)
  | .ok a, .ok b =>
    if h : a = b then .isTrue (by rw [h]) else .isFalse (fun hh => by cases hh; exact h rfl)
  | .error _, .ok _ => .isFalse (fun hh => by cases hh)
  | .ok _, .error _ => .isFalse (fun hh => by cases hh)

/-- The boundary function `boundaryFun (some shNight) stgDefault` resolves
to: grace 15, cap 8, midnight-crossing shift 22:00-06:00 anchored to the day of the start punch. -/
def bndNight : Int → Int := fun st =>
  min (capDeadlineShift (st.ediv secondsPerDay) 79200 21600 15 8)
    (shiftStartDtOf (st.ediv secondsPerDay) 79200 + secondsPerDay)

/-- Model of `excel_logic.filter_out_sundays_from_df` on day-level records:
keep the non-Sunday rows (its `day == "Subtotal"` escape concerns
the subtotal rows appended later, which are not day-level records). -/
def filterOutSundaysFromDf (l : List Rec) : List Rec :=
  l.filter (fun r => !isSunday r.day)

/-- A worked row as it reaches classification: employee, day, start and end
timestamps; the classification columns still hold their placeholders. -/
def inputRow (emp : String) (day : Int) (st en : Option Int) : Rec where
  employee_id := emp
  day := day
  start_time := st
  end_time := en
  start_device_sn := ""
  end_device_sn := ""
  time_spent := ""
  work_status := "worked"
  no_checkout := false
  early_checkout := false
  shift_flag := ""
  late_in := false

/-- The two same-day capped sessions the no-shift pipeline produces for
employee "1" punching at 00:00 and 09:00 on day 0 (used for claim C2). -/
def wRowC2a : Rec where
  employee_id := "1"
  day := 0
  start_time := some 0
  end_time := some 28800
  start_device_sn := "D1"
  end_device_sn := ""
  time_spent := "0:00:00"
  work_status := "worked"
  no_checkout := true
  early_checkout := false
  shift_flag := "no checkout"
  late_in := false

/-- The second session of the claim-C2 scenario (09:00, capped at 17:00). -/
def wRowC2b : Rec where
  employee_id := "1"
  day := 0
  start_time := some 32400
  end_time := some 61200
  start_device_sn := "D1"
  end_device_sn := ""
  time_spent := "0:00:00"
  work_status := "worked"
  no_checkout := true
  early_checkout := false
  shift_flag := "no checkout"
  late_in := false

/-- A standard day shift 08:00-17:00, stored the way `get_shift_mappings`
produces entries. -/
def sh17 : ShiftEntry where
  shift_name := "day"
  shift_start := some "08:00:00"
  shift_end := some "17:00:00"

/-- The midnight-crossing shift 22:00-06:00 of the specification. -/
def shNight : ShiftEntry where
  shift_name := "night"
  shift_start := some "22:00:00"
  shift_end := some "06:00:00"

/-- All settings unset: every `get_setting` call returns `""`. -/
def stgDefault : Settings := {}

/-- The boundary function `boundaryFun (some sh17) stgDefault` resolves to:
grace 15, cap 8, shift 08:00-17:00 anchored to the day of the start punch. -/
def bnd17 : Int → Int := fun st =>
  min (capDeadlineShift (st.ediv secondsPerDay) 28800 61200 15 8)
    (shiftStartDtOf (st.ediv secondsPerDay) 28800 + secondsPerDay)

end ADMS

namespace ADMS

theorem gt_of_mem_dropWhileLE {st : Int} {l : List Punch} (hs : List.Sorted punchLE l)
    {x : Punch} (hx : x ∈ l.dropWhile (fun p => p.timestamp ≤ st)) : st < x.timestamp := by
  induction l with
  | nil => simp at hx
  | cons a l ih =>
    by_cases h : a.timestamp ≤ st
    · rw [List.dropWhile_cons_of_pos (by simpa using h)] at hx
      exact ih hs.of_cons hx
    · rw [List.dropWhile_cons_of_neg (by simpa using h)] at hx
      rcases List.mem_cons.mp hx with rfl | hx2
      · omega
      · have := List.rel_of_sorted_cons hs x hx2
        unfold punchLE at this
        omega

theorem le_getLast_of_sorted (l : List Punch) :
    List.Sorted punchLE l → ∀ c, l.getLast? = some c → ∀ x ∈ l, x.timestamp ≤ c.timestamp := by
  induction l with
  | nil => intro _ c hc; simp at hc
  | cons a l ih =>
    intro hs c hc x hx
    cases l with
    | nil =>
      simp at hc hx
      subst hc; subst hx; exact le_refl _
    | cons b l2 =>
      rw [List.getLast?_cons_cons] at hc
      rcases List.mem_cons.mp hx with rfl | hx2
      · exact List.rel_of_sorted_cons hs c (List.mem_of_getLast?_eq_some hc)
      · exact ih hs.of_cons c hc x hx2

theorem mem_takeWhile_pred {p : Punch → Bool} {l : List Punch} {x : Punch}
    (hx : x ∈ l.takeWhile p) : p x = true := by
  have hall := List.all_takeWhile (l := l) (p := p)
  rw [List.all_eq_true] at hall
  exact hall x hx

theorem reconcileGo_end_lt_boundary (bnd : Int → Int) :
    ∀ (fuel : Nat) (ps : List Punch), List.Sorted punchLE ps →
    ∀ s ∈ reconcileGo bnd fuel ps, ∀ c, s.endP = some c →
      s.startP.timestamp < c.timestamp ∧ c.timestamp < bnd s.startP.timestamp := by
  intro fuel
  induction fuel with
  | zero => intro ps _ s hmem; simp [reconcileGo] at hmem
  | succ n ih =>
    intro ps hs s hmem c hc
    cases ps with
    | nil => simp [reconcileGo] at hmem
    | cons st rest =>
      rcases hL : (List.takeWhile (fun p => p.timestamp < bnd st.timestamp)
          (List.dropWhile (fun p => p.timestamp ≤ st.timestamp) rest)).getLast? with _ | c0
      · rw [reconcileGo] at hmem
        simp only [hL] at hmem
        rcases List.mem_cons.mp hmem with rfl | hmem2
        · simp at hc
        · exact ih rest hs.of_cons s hmem2 c hc
      · rw [reconcileGo] at hmem
        simp only [hL] at hmem
        rcases List.mem_cons.mp hmem with rfl | hmem2
        · obtain rfl : c0 = c := by simpa using hc
          have hcmem0 : c0 ∈ List.takeWhile (fun p => p.timestamp < bnd st.timestamp)
              (List.dropWhile (fun p => p.timestamp ≤ st.timestamp) rest) :=
            List.mem_of_getLast?_eq_some hL
          constructor
          · have hcmem : c0 ∈ List.dropWhile (fun p => p.timestamp ≤ st.timestamp) rest :=
              List.takeWhile_subset _ hcmem0
            exact gt_of_mem_dropWhileLE hs.of_cons hcmem
          · have hP := mem_takeWhile_pred hcmem0
            simpa using hP
        · refine ih _ ?_ s hmem2 c hc
          exact List.Pairwise.sublist ((List.dropWhile_sublist _).trans (List.dropWhile_sublist _))
            hs.of_cons

/-- The two invariants of the pairing loop, at the exported fuel. -/
theorem reconcile_end_lt_boundary (bnd : Int → Int) (ps : List Punch)
    (hs : List.Sorted punchLE ps) :
    ∀ s ∈ reconcile bnd ps, ∀ c, s.endP = some c →
      s.startP.timestamp < c.timestamp ∧ c.timestamp < bnd s.startP.timestamp :=
  reconcileGo_end_lt_boundary bnd ps.length ps hs

theorem reconcileGo_late_punch_starts (bnd : Int → Int) :
    ∀ (fuel : Nat) (ps : List Punch), ps.length ≤ fuel → List.Sorted punchLE ps →
    ∀ p ∈ ps, (∀ q ∈ ps, q.timestamp = p.timestamp → q = p) →
      (∀ s ∈ reconcileGo bnd fuel ps, s.startP.timestamp < p.timestamp →
        bnd s.startP.timestamp ≤ p.timestamp) →
      ∃ s ∈ reconcileGo bnd fuel ps, s.startP = p := by
  intro fuel
  induction fuel with
  | zero =>
    intro ps hlen _ p hp
    have hnil : ps = [] := List.eq_nil_of_length_eq_zero (by omega)
    subst hnil
    simp at hp
  | succ n ih =>
    intro ps hlen hs p hp hnod hbig
    cases ps with
    | nil => simp at hp
    | cons st rest =>
      rcases hL : (List.takeWhile (fun p => p.timestamp < bnd st.timestamp)
          (List.dropWhile (fun p => p.timestamp ≤ st.timestamp) rest)).getLast? with _ | c0
      · rw [reconcileGo] at hbig ⊢
        simp only [hL] at hbig ⊢
        rcases List.mem_cons.mp hp with rfl | hp2
        · exact ⟨⟨p, none⟩, List.mem_cons_self _ _, rfl⟩
        · have hlen2 : rest.length ≤ n := by
            simp only [List.length_cons] at hlen
            omega
          obtain ⟨s, hsmem, hstart⟩ :=
            ih rest hlen2 hs.of_cons p hp2 (fun q hq => hnod q (List.mem_cons_of_mem _ hq))
              (fun s hm => hbig s (List.mem_cons_of_mem _ hm))
          exact ⟨s, List.mem_cons_of_mem _ hsmem, hstart⟩
      · rw [reconcileGo] at hbig ⊢
        simp only [hL] at hbig ⊢
        rcases List.mem_cons.mp hp with rfl | hp2
        · exact ⟨⟨p, some c0⟩, List.mem_cons_self _ _, rfl⟩
        · have hp2s : p ∈ List.takeWhile (fun p => p.timestamp ≤ st.timestamp) rest ++
              List.dropWhile (fun p => p.timestamp ≤ st.timestamp) rest := by
            rw [List.takeWhile_append_dropWhile]; exact hp2
          rcases List.mem_append.mp hp2s with hdup | hafter
          · have hle : p.timestamp ≤ st.timestamp := by simpa using mem_takeWhile_pred hdup
            have hge : st.timestamp ≤ p.timestamp := List.rel_of_sorted_cons hs p hp2
            have hstp : st = p := hnod st (List.mem_cons_self _ _) (by omega)
            exact ⟨⟨st, some c0⟩, List.mem_cons_self _ _, hstp⟩
          · have hafter2 : p ∈ List.takeWhile (fun p => p.timestamp < bnd st.timestamp)
                (List.dropWhile (fun p => p.timestamp ≤ st.timestamp) rest) ++
                List.dropWhile (fun p => p.timestamp < bnd st.timestamp)
                (List.dropWhile (fun p => p.timestamp ≤ st.timestamp) rest) := by
              rw [List.takeWhile_append_dropWhile]; exact hafter
            rcases List.mem_append.mp hafter2 with hcand | hrem
            · have hlt : p.timestamp < bnd st.timestamp := by
                simpa using mem_takeWhile_pred hcand
              have hgt : st.timestamp < p.timestamp :=
                gt_of_mem_dropWhileLE hs.of_cons (List.takeWhile_subset _ hcand)
              have hbighead : bnd st.timestamp ≤ p.timestamp := by
                have := hbig ⟨st, some c0⟩ (List.mem_cons_self _ _)
                simpa using this hgt
              omega
            · have hsorted : List.Sorted punchLE
                  (List.dropWhile (fun p => p.timestamp < bnd st.timestamp)
                    (List.dropWhile (fun p => p.timestamp ≤ st.timestamp) rest)) :=
                List.Pairwise.sublist
                  ((List.dropWhile_sublist _).trans (List.dropWhile_sublist _)) hs.of_cons
              have hsub : ∀ q, q ∈ List.dropWhile (fun p => p.timestamp < bnd st.timestamp)
                  (List.dropWhile (fun p => p.timestamp ≤ st.timestamp) rest) →
                  q ∈ st :: rest :=
                fun q hq => List.mem_cons_of_mem _
                  (((List.dropWhile_sublist _).trans (List.dropWhile_sublist _)).mem hq)
              have hlen2 : (List.dropWhile (fun p => p.timestamp < bnd st.timestamp)
                  (List.dropWhile (fun p => p.timestamp ≤ st.timestamp) rest)).length ≤ n := by
                have h1 := ((List.dropWhile_sublist (l := rest)
                  (p := fun p => decide (p.timestamp ≤ st.timestamp)))).length_le
                have h2 := ((List.dropWhile_sublist
                  (l := List.dropWhile (fun p => decide (p.timestamp ≤ st.timestamp)) rest)
                  (p := fun p => decide (p.timestamp < bnd st.timestamp)))).length_le
                simp only [List.length_cons] at hlen
                omega
              obtain ⟨s, hsmem, hstart⟩ :=
                ih _ hlen2 hsorted p hrem (fun q hq => hnod q (hsub q hq))
                  (fun s hm => hbig s (List.mem_cons_of_mem _ hm))
              exact ⟨s, List.mem_cons_of_mem _ hsmem, hstart⟩

theorem reconcile_late_punch_starts (bnd : Int → Int) (ps : List Punch)
    (hs : List.Sorted punchLE ps) :
    ∀ p ∈ ps, (∀ q ∈ ps, q.timestamp = p.timestamp → q = p) →
      (∀ s ∈ reconcile bnd ps, s.startP.timestamp < p.timestamp →
        bnd s.startP.timestamp ≤ p.timestamp) →
      ∃ s ∈ reconcile bnd ps, s.startP = p :=
  reconcileGo_late_punch_starts bnd ps.length ps (le_refl _) hs

theorem countP_flatMap {α β : Type} (p : α → Bool) (f : β → List α) :
    ∀ l : List β, ((l.flatMap f).countP p) = (l.map (fun b => (f b).countP p)).sum := by
  intro l
  induction l with
  | nil => simp
  | cons a t ih => simp [List.flatMap_cons, List.countP_append, ih]

theorem countP_flatMap_single {α β : Type} [DecidableEq β] (p : α → Bool) (f : β → List α)
    (l : List β) (x : β) (hx : x ∈ l) (hnd : l.Nodup)
    (hz : ∀ y ∈ l, y ≠ x → (f y).countP p = 0) :
    (l.flatMap f).countP p = (f x).countP p := by
  induction l with
  | nil => simp at hx
  | cons a t ih =>
    rw [List.flatMap_cons, List.countP_append]
    rcases List.mem_cons.mp hx with rfl | hxt
    · have hzt : ∀ y ∈ t, (f y).countP p = 0 := fun y hy =>
        hz y (List.mem_cons_of_mem _ hy) (fun hh => (List.nodup_cons.mp hnd).1 (hh ▸ hy))
      have : (t.flatMap f).countP p = 0 := by
        rw [countP_flatMap]
        refine List.sum_eq_zero ?_
        intro n hn
        rcases List.mem_map.mp hn with ⟨y, hy, rfl⟩
        exact hzt y hy
      omega
    · have hax : a ≠ x := fun hh => (List.nodup_cons.mp hnd).1 (hh ▸ hxt)
      rw [hz a (List.mem_cons_self _ _) hax,
        ih hxt (List.nodup_cons.mp hnd).2 (fun y hy hyx => hz y (List.mem_cons_of_mem _ hy) hyx)]
      omega

theorem mem_dayRange {s e d : Int} : d ∈ dayRange s e ↔ s ≤ d ∧ d ≤ e := by
  unfold dayRange
  rw [List.mem_map]
  constructor
  · rintro ⟨a, ha, rfl⟩
    rw [List.mem_range] at ha
    omega
  · rintro ⟨h1, h2⟩
    refine ⟨(d - s).toNat, ?_, by omega⟩
    rw [List.mem_range]
    omega

theorem nodup_dayRange (s e : Int) : (dayRange s e).Nodup := by
  unfold dayRange
  exact (List.nodup_range _).map (fun a b hab => by omega)

/-- Counterexample to C2: employee "1" punches at 00:00 and 09:00 on day 0
(a Thursday) with no shift assigned; the 8h fallback boundary splits them
into two sessions on the same day, and `generate_complete_records` copies
both worked rows, so the produced summary holds two records for
("1", day 0) instead of exactly one; moreover roster employee "2" (who has
no punches) gets no record at all, since the roster is only consulted when
there are no worked rows whatsoever. -/
theorem C2_coverage_refuted :
    processAttendanceSummary [⟨"1", 0, "D1"⟩, ⟨"1", 32400, "D1"⟩] [] stgDefault
      ["1", "2"] (some (0, 0)) = .ok [wRowC2a, wRowC2b] ∧
    ([wRowC2a, wRowC2b] : List Rec).countP
      (fun r => decide (r.employee_id = "1") && decide (r.day = 0)) = 2 ∧
    ([wRowC2a, wRowC2b] : List Rec).countP (fun r => decide (r.employee_id = "2")) = 0 ∧
    isSunday 0 = false := by
  refine ⟨by decide, by decide, by decide, by decide⟩

/-- Claim C2 (amended): per-employee-per-day coverage holds only for
employees that appear in the worked summary: for such an employee (with a
non-empty id) and every non-Sunday day in the reporting range, the complete
records contain the worked rows of that employee for the day when there are any
- one record per worked row, so a day with several sessions appears several
times - and exactly one synthesized absent record otherwise.  Employees
known only to the roster are not covered unless the worked summary is
empty. -/
theorem C2_coverage_amended (roster : List String) (ws : List Rec) (ds de d : Int)
    (e : String)
    (he : e ∈ ws.map (fun (r : Rec) => r.employee_id)) (hne : e ≠ "")
    (hd1 : ds ≤ d) (hd2 : d ≤ de) (hsun : isSunday d = false) :
    (generateCompleteRecords roster ws (some (ds, de))).countP
        (fun r => decide (r.employee_id = e) && decide (r.day = d)) =
      max 1 (ws.countP (fun r => decide (r.employee_id = e) && decide (r.day = d))) := by
  cases ws with
  | nil => simp at he
  | cons w ws0 =>
  have hgen : generateCompleteRecords roster (w :: ws0) (some (ds, de)) =
      (((w :: ws0).map (fun (r : Rec) => r.employee_id)).dedup.flatMap (fun emp =>
        if emp = "" then []
        else ((dayRange ds de).filter (fun d0 => !isSunday d0)).flatMap (fun d0 =>
          let dayData := ((w :: ws0).filter (fun (r : Rec) => r.employee_id = emp)).filter
            (fun (r : Rec) => r.day = d0)
          if dayData.isEmpty then [absentRec emp d0] else dayData))) := rfl
  rw [hgen]
  have hdmem : d ∈ (dayRange ds de).filter (fun d0 => !isSunday d0) :=
    List.mem_filter.mpr ⟨mem_dayRange.mpr ⟨hd1, hd2⟩, by simp [hsun]⟩
  have hdnodup : ((dayRange ds de).filter (fun d0 => !isSunday d0)).Nodup :=
    (nodup_dayRange ds de).filter _
  have hemem : e ∈ ((w :: ws0).map (fun (r : Rec) => r.employee_id)).dedup :=
    List.mem_dedup.mpr he
  have hedup : (((w :: ws0).map (fun (r : Rec) => r.employee_id)).dedup).Nodup :=
    List.nodup_dedup _
  rw [countP_flatMap_single _ _ _ e hemem hedup ?hzemp]
  case hzemp =>
    intro y hy hyne
    by_cases hy0 : y = ""
    · simp [hy0]
    · rw [if_neg hy0]
      refine List.countP_eq_zero.mpr ?_
      intro r hr
      rcases List.mem_flatMap.mp hr with ⟨d0, hd0, hrin⟩
      have hremp : r.employee_id = y := by
        by_cases hempty : (((w :: ws0).filter (fun (r : Rec) => r.employee_id = y)).filter
            (fun (r : Rec) => r.day = d0)).isEmpty
        · simp only [hempty, if_true] at hrin
          rcases List.mem_singleton.mp hrin with rfl
          rfl
        · simp only [hempty, Bool.false_eq_true, if_false] at hrin
          have h2 := (List.mem_filter.mp (List.mem_filter.mp hrin).1).2
          simpa using h2
      show ¬(decide (r.employee_id = e) && decide (r.day = d)) = true
      have hde : decide (r.employee_id = e) = false := decide_eq_false (by rw [hremp]; exact hyne)
      rw [hde, Bool.false_and]
      exact Bool.false_ne_true
  rw [if_neg hne]
  rw [countP_flatMap_single _ _ _ d hdmem hdnodup ?hzday]
  case hzday =>
    intro d0 hd0 hd0ne
    refine List.countP_eq_zero.mpr ?_
    intro r hr
    have hrday : r.day = d0 := by
      by_cases hempty : (((w :: ws0).filter (fun (r : Rec) => r.employee_id = e)).filter
          (fun (r : Rec) => r.day = d0)).isEmpty
      · simp only [hempty, if_true] at hr
        rcases List.mem_singleton.mp hr with rfl
        rfl
      · simp only [hempty, Bool.false_eq_true, if_false] at hr
        have h2 := (List.mem_filter.mp hr).2
        simpa using h2
    show ¬(decide (r.employee_id = e) && decide (r.day = d)) = true
    have hdd0 : decide (r.day = d) = false := decide_eq_false (by rw [hrday]; exact hd0ne)
    rw [hdd0, Bool.and_false]
    exact Bool.false_ne_true
  have hswap : (w :: ws0).filter (fun r => decide (r.day = d) && decide (r.employee_id = e)) =
      (w :: ws0).filter (fun r => decide (r.employee_id = e) && decide (r.day = d)) :=
    List.filter_congr (fun a _ => by rw [Bool.and_comm])
  have hdd : (((w :: ws0).filter (fun (r : Rec) => r.employee_id = e)).filter
      (fun (r : Rec) => r.day = d)) = (w :: ws0).filter
      (fun r => decide (r.employee_id = e) && decide (r.day = d)) := by
    rw [List.filter_filter, hswap]
  by_cases hempty : (((w :: ws0).filter (fun (r : Rec) => r.employee_id = e)).filter
      (fun (r : Rec) => r.day = d)).isEmpty
  · simp only [hempty, if_true]
    have hfe : (w :: ws0).filter
        (fun r => decide (r.employee_id = e) && decide (r.day = d)) = [] := by
      rw [← hdd]
      exact List.isEmpty_iff.mp hempty
    have hc0 : (w :: ws0).countP
        (fun r => decide (r.employee_id = e) && decide (r.day = d)) = 0 := by
      rw [List.countP_eq_length_filter, hfe]
      rfl
    rw [hc0]
    simp [absentRec]
  · simp only [hempty, Bool.false_eq_true, if_false]
    have hall : ∀ r ∈ (((w :: ws0).filter (fun (r : Rec) => r.employee_id = e)).filter
        (fun (r : Rec) => r.day = d)),
        (fun r => decide (r.employee_id = e) && decide (r.day = d)) r = true := by
      intro r hr
      have h1 := (List.mem_filter.mp (List.mem_filter.mp hr).1).2
      have h2 := (List.mem_filter.mp hr).2
      show (decide (r.employee_id = e) && decide (r.day = d)) = true
      simp only [Bool.and_eq_true]
      exact ⟨h1, h2⟩
    rw [List.countP_eq_length.mpr hall]
    have hnn : (((w :: ws0).filter (fun (r : Rec) => r.employee_id = e)).filter
        (fun (r : Rec) => r.day = d)) ≠ [] := by
      intro hh
      rw [hh] at hempty
      exact hempty rfl
    have hlp : 0 < (((w :: ws0).filter (fun (r : Rec) => r.employee_id = e)).filter
        (fun (r : Rec) => r.day = d)).length := List.length_pos.mpr hnn
    rw [hdd] at hlp ⊢
    rw [← List.countP_eq_length_filter] at hlp ⊢
    omega

/-- Witness for C2 (amended): one worked row on day 0; day 1 (a Friday) of
the range has no worked row, so exactly one absent record is produced for
it. -/
theorem C2_coverage_amended_witness :
    (generateCompleteRecords [] [wRowC2a] (some (0, 1))).countP
        (fun r => decide (r.employee_id = "1") && decide (r.day = 1)) =
      max 1 (([wRowC2a] : List Rec).countP
        (fun r => decide (r.employee_id = "1") && decide (r.day = 1))) :=
  C2_coverage_amended [] [wRowC2a] 0 1 1 "1"
    (by decide) (by decide) (by decide) (by decide) (by decide)

theorem genAbsent_no_sunday {roster : List String} {s e : Int} {r : Rec}
    (hr : r ∈ generateAbsentDaysForDateRange roster s e) : isSunday r.day = false := by
  unfold generateAbsentDaysForDateRange at hr
  rcases List.mem_flatMap.mp hr with ⟨emp, hemp, hin⟩
  by_cases h0 : emp = ""
  · simp [h0] at hin
  · rw [if_neg h0] at hin
    rcases List.mem_map.mp hin with ⟨d0, hd0, rfl⟩
    have := (List.mem_filter.mp hd0).2
    simpa using this

theorem genCompleteRecords_no_sunday {roster : List String} {ws : List Rec}
    {range? : Option (Int × Int)} {r : Rec}
    (hr : r ∈ generateCompleteRecords roster ws range?) : isSunday r.day = false := by
  cases ws with
  | nil =>
    cases range? with
    | none => simp [generateCompleteRecords] at hr
    | some se =>
      obtain ⟨s0, e0⟩ := se
      exact genAbsent_no_sunday hr
  | cons w ws0 =>
    have hr2 : r ∈ (((w :: ws0).map (fun (r : Rec) => r.employee_id)).dedup.flatMap (fun emp =>
        if emp = "" then []
        else ((match range? with
          | some (s, e) => dayRange s e
          | none => dayRange (minDay ((w :: ws0).map (fun (r : Rec) => r.day)))
              (maxDay ((w :: ws0).map (fun (r : Rec) => r.day)))).filter
            (fun d0 => !isSunday d0)).flatMap (fun d0 =>
          let dayData := ((w :: ws0).filter (fun (r : Rec) => r.employee_id = emp)).filter
            (fun (r : Rec) => r.day = d0)
          if dayData.isEmpty then [absentRec emp d0] else dayData))) := hr
    rcases List.mem_flatMap.mp hr2 with ⟨emp, hemp, hin⟩
    by_cases h0 : emp = ""
    · simp [h0] at hin
    · rw [if_neg h0] at hin
      rcases List.mem_flatMap.mp hin with ⟨d0, hd0, hin2⟩
      have hsun0 : isSunday d0 = false := by
        have := (List.mem_filter.mp hd0).2
        simpa using this
      by_cases hempty : (((w :: ws0).filter (fun (r : Rec) => r.employee_id = emp)).filter
          (fun (r : Rec) => r.day = d0)).isEmpty
      · simp only [hempty, if_true] at hin2
        rcases List.mem_singleton.mp hin2 with rfl
        exact hsun0
      · simp only [hempty, Bool.false_eq_true, if_false] at hin2
        have hd : r.day = d0 := by
          have := (List.mem_filter.mp hin2).2
          simpa using this
        rw [hd]
        exact hsun0

/-- Claim C10: no output row ever carries a Sunday date: the complete-record
generation iterates only non-Sunday days (and so also drops any worked row
whose day is a Sunday), the export-side filter keeps only non-Sunday rows,
and a Sunday session that does reach classification is flagged `weekend`. -/
theorem C10_no_sunday_in_summary :
    (∀ (roster : List String) (ws : List Rec) (range? : Option (Int × Int)),
      ∀ r ∈ generateCompleteRecords roster ws range?, isSunday r.day = false)
    ∧ (∀ l : List Rec, ∀ r ∈ filterOutSundaysFromDf l, isSunday r.day = false)
    ∧ (∀ (roster : List String) (ws : List Rec) (range? : Option (Int × Int)) (w : Rec),
        isSunday w.day = true → w ∉ generateCompleteRecords roster ws range?)
    ∧ (∀ (r : Rec) (sd : List (String × ShiftEntry)) (stg : Settings) (st : Int),
        r.start_time = some st → isSunday r.day = true →
        ∃ res, calculateTimeSpentAndFlag r sd stg = .ok res ∧
          res.shift_flag = "weekend") := by
  refine ⟨fun roster ws range? r hr => genCompleteRecords_no_sunday hr,
    fun l r hr => ?_, fun roster ws range? w hsun hmem => ?_, fun r sd stg st hst hsun => ?_⟩
  · have := (List.mem_filter.mp hr).2
    simpa using this
  · rw [genCompleteRecords_no_sunday hmem] at hsun
    cases hsun
  · simp only [calculateTimeSpentAndFlag, hst, hsun, if_true]
    rcases hen : adjustEnd st r.end_time with _ | e <;> simp only [hen] <;>
      exact ⟨_, rfl, rfl⟩

/-- Witness for C10: the absent record synthesized for day 0 (a Thursday)
in range day 0 .. day 6 is indeed not a Sunday row. -/
theorem C10_no_sunday_in_summary_witness :
    isSunday (absentRec "7" 0).day = false :=
  C10_no_sunday_in_summary.1 ["7"] [] (some (0, 6)) (absentRec "7" 0) (by decide)

/-- Claim C1: in session reconciliation, with the boundary the source derives
from the resolved shift and settings (`min(shift_end + grace + cap,
next-day shift start)` when a shift resolves, else `start + cap_hours` -
the `boundaryFun` hypothesis), a checkout punch of an emitted session is
always strictly after the session start and strictly before the boundary of
the session, so a punch at or after the boundary (in particular at
`cap deadline + 1 minute`) is never selected as the checkout of that
session; such a punch (when no other punch shares its timestamp and it lies
at or after the boundary of every earlier-starting session) instead becomes
the start punch of a session of its own. -/
theorem C1_boundary_correctness (shift? : Option ShiftEntry) (stg : Settings)
    (bnd : Int → Int) (_hbnd : boundaryFun shift? stg = .ok bnd)
    (ps : List Punch) (hs : List.Sorted punchLE ps) :
    (∀ s ∈ reconcile bnd ps, ∀ c, s.endP = some c →
      s.startP.timestamp < c.timestamp ∧ c.timestamp < bnd s.startP.timestamp)
    ∧ (∀ p ∈ ps, (∀ q ∈ ps, q.timestamp = p.timestamp → q = p) →
        (∀ s ∈ reconcile bnd ps, s.startP.timestamp < p.timestamp →
          bnd s.startP.timestamp ≤ p.timestamp) →
        ∃ s ∈ reconcile bnd ps, s.startP = p) :=
  ⟨reconcile_end_lt_boundary bnd ps hs, reconcile_late_punch_starts bnd ps hs⟩

/-- Witness for C1: shift 08:00-17:00, default grace 15m and cap 8h, so the
boundary of a session starting 08:10 on day 0 is the cap deadline
17:00 + 15m + 8h = 01:15 next day (second 90900); the punch one minute
past it (second 90960) is not paired as checkout but starts a new
session. -/
theorem C1_boundary_correctness_witness :
    ∃ s ∈ reconcile bnd17 [⟨29400, "A"⟩, ⟨90960, "B"⟩], s.startP = ⟨90960, "B"⟩ := by
  have hbnd : boundaryFun (some sh17) stgDefault = .ok bnd17 := by
    have h1 : parseStored sh17.shift_start = some 28800 := by decide
    have h2 : parseStored sh17.shift_end = some 61200 := by decide
    simp only [boundaryFun, h1, h2]
    rfl
  exact (C1_boundary_correctness (some sh17) stgDefault bnd17 hbnd _ (by decide)).2
    ⟨90960, "B"⟩ (by decide) (by decide) (by decide)

/-- Claim C8: every session emitted by reconciliation (which sorts each
group of punches per employee first) with a resolved end has its start
strictly earlier than its end, for every input punch list, duplicates
included. -/
theorem C8_session_start_lt_end (bnd : Int → Int) (ps : List Punch) :
    ∀ s ∈ reconcile bnd (List.insertionSort punchLE ps), ∀ c, s.endP = some c →
      s.startP.timestamp < c.timestamp :=
  fun s hm c hc =>
    (reconcile_end_lt_boundary bnd _ (List.sorted_insertionSort punchLE ps) s hm c hc).1

/-- Witness for C8: a punch list with a duplicated timestamp; the emitted
session pairs the first 100-punch with the 200-punch, and 100 < 200. -/
theorem C8_session_start_lt_end_witness :
    (Punch.mk 100 "A").timestamp < (Punch.mk 200 "C").timestamp :=
  C8_session_start_lt_end (fun t => t + 28800) [⟨100, "A"⟩, ⟨100, "B"⟩, ⟨200, "C"⟩]
    ⟨⟨100, "A"⟩, some ⟨200, "C"⟩⟩ (by decide) ⟨200, "C"⟩ rfl

/-- Claim C3: with a resolved shift (and a weekday with a present start), the
status is decided by first-match precedence: capped sessions are
`no checkout`; otherwise an end before the shift end wins as `early out`
regardless of lateness; otherwise a start after `shift_start + 15min` is
`late in`; otherwise an end past the overtime cutoff is `overtime`;
otherwise `normal`. -/
theorem C3_status_precedence (r : Rec) (sd : List (String × ShiftEntry)) (stg : Settings)
    (st ssTod seTod : Int) (si : ShiftEntry)
    (h1 : r.start_time = some st) (h2 : isSunday r.day = false)
    (h3 : lookupShift sd r.employee_id = some si)
    (h4 : parseStored si.shift_start = some ssTod)
    (h5 : parseStored si.shift_end = some seTod) :
    ∃ res, calculateTimeSpentAndFlag r sd stg = .ok res ∧
      ((adjustEnd st r.end_time = none → res.shift_flag = "no checkout") ∧
       ∀ e, adjustEnd st r.end_time = some e →
         (capDeadlineShift r.day ssTod seTod (graceCapOf stg).1 (graceCapOf stg).2 < e →
            res.shift_flag = "no checkout") ∧
         (e ≤ capDeadlineShift r.day ssTod seTod (graceCapOf stg).1 (graceCapOf stg).2 →
            (e < shiftEndDtOf r.day ssTod seTod → res.shift_flag = "early out") ∧
            (shiftEndDtOf r.day ssTod seTod ≤ e →
              (shiftStartDtOf r.day ssTod + 15 * 60 < st → res.shift_flag = "late in") ∧
              (st ≤ shiftStartDtOf r.day ssTod + 15 * 60 →
                (shiftEndDtOf r.day ssTod seTod + (graceCapOf stg).1 * 60 < e →
                   res.shift_flag = "overtime") ∧
                (e ≤ shiftEndDtOf r.day ssTod seTod + (graceCapOf stg).1 * 60 →
                   res.shift_flag = "normal"))))) := by
  simp only [calculateTimeSpentAndFlag, h1, h2, h3, h4, h5, Bool.false_eq_true, if_false]
  rcases hen : adjustEnd st r.end_time with _ | e
  · simp only [hen]
    by_cases hz : isSubstrOf (pyLower stg.shift_cap_type) "zero" = true
    · simp only [hz, if_true]
      exact ⟨_, rfl, fun _ => rfl, fun e he => by simp at he⟩
    · simp only [Bool.not_eq_true] at hz
      simp only [hz, Bool.false_eq_true, if_false]
      exact ⟨_, rfl, fun _ => rfl, fun e he => by simp at he⟩
  · simp only [hen]
    split_ifs with hcap hz hearly hlate hot
    · refine ⟨_, rfl, fun _ => rfl, fun e2 he2 => ?_⟩
      obtain rfl : e2 = e := by injection he2 with h; omega
      simp only [decide_eq_true_eq] at hcap
      exact ⟨fun _ => rfl, fun hle => absurd hcap (by omega)⟩
    · refine ⟨_, rfl, fun _ => rfl, fun e2 he2 => ?_⟩
      obtain rfl : e2 = e := by injection he2 with h; omega
      simp only [decide_eq_true_eq] at hcap
      exact ⟨fun _ => rfl, fun hle => absurd hcap (by omega)⟩
    · refine ⟨_, rfl, fun hc => hc.elim, fun e2 he2 => ?_⟩
      obtain rfl : e2 = e := by injection he2 with h; omega
      simp only [decide_eq_true_eq, decide_eq_false_iff_not] at hcap hearly
      refine ⟨fun hgt => absurd hgt hcap, fun hle => ⟨fun _ => rfl, fun hB => ?_⟩⟩
      exact absurd hearly (by omega)
    · refine ⟨_, rfl, fun hc => hc.elim, fun e2 he2 => ?_⟩
      obtain rfl : e2 = e := by injection he2 with h; omega
      simp only [decide_eq_true_eq, decide_eq_false_iff_not] at hcap hearly hlate
      refine ⟨fun hgt => absurd hgt hcap, fun hle => ⟨fun hA => absurd hA hearly, fun hB =>
        ⟨fun _ => rfl, fun hD => absurd hlate (by omega)⟩⟩⟩
    · refine ⟨_, rfl, fun hc => hc.elim, fun e2 he2 => ?_⟩
      obtain rfl : e2 = e := by injection he2 with h; omega
      simp only [decide_eq_true_eq, decide_eq_false_iff_not, Bool.and_eq_true,
        Bool.not_eq_true] at hcap hearly hlate hot
      refine ⟨fun hgt => absurd hgt hcap, fun hle => ⟨fun hA => absurd hA hearly, fun hB =>
        ⟨fun hC => absurd hC hlate, fun hD => ⟨fun _ => rfl, fun hF => ?_⟩⟩⟩⟩
      exact absurd hot.1 (by omega)
    · refine ⟨_, rfl, fun hc => hc.elim, fun e2 he2 => ?_⟩
      obtain rfl : e2 = e := by injection he2 with h; omega
      simp only [decide_eq_true_eq, decide_eq_false_iff_not, Bool.and_eq_true,
        Bool.not_eq_true] at hcap hearly hlate hot
      refine ⟨fun hgt => absurd hgt hcap, fun hle => ⟨fun hA => absurd hA hearly, fun hB =>
        ⟨fun hC => absurd hC hlate, fun hD => ⟨fun hE => ?_, fun _ => rfl⟩⟩⟩⟩
      exact absurd ⟨hE, by simp [hcap]⟩ hot

/-- Witness for C3: shift 08:00-17:00, punch-in 08:30 (late, past the 15min
grace) and punch-out 16:00 (early, not capped) is classified `early out` -
early-out outranks late-in. -/
theorem C3_status_precedence_witness :
    ∃ res, calculateTimeSpentAndFlag (inputRow "7" 0 (some 30600) (some 57600))
      [("7", sh17)] stgDefault = .ok res ∧ res.shift_flag = "early out" ∧
      res.late_in = true := by
  obtain ⟨res, hres, hconj⟩ := C3_status_precedence
    (inputRow "7" 0 (some 30600) (some 57600)) [("7", sh17)] stgDefault
    30600 28800 61200 sh17 rfl (by decide) (by decide) (by decide) (by decide)
  refine ⟨res, hres, ((hconj.2 57600 (by decide)).2 (by decide)).1 (by decide), ?_⟩
  have hval : calculateTimeSpentAndFlag (inputRow "7" 0 (some 30600) (some 57600))
      [("7", sh17)] stgDefault =
      .ok ⟨"07:30:00", false, true, some 57600, "early out", true⟩ := by decide
  rw [hval] at hres
  cases hres
  rfl

/-- Counterexample to C6: shift 08:00-17:00, punch-in 08:07 (second 29220),
punch-out 17:05 (second 61500): the code classifies this session `normal`
with `late_in = false`, not `late in` - the late-arrival grace is a
hardcoded 15 minutes, so 08:07 is within grace. -/
theorem C6_late_in_five_minute_grace_refuted :
    calculateTimeSpentAndFlag (inputRow "7" 0 (some 29220) (some 61500))
      [("7", sh17)] stgDefault =
      .ok ⟨"08:58:00", false, false, some 61500, "normal", false⟩ ∧
      ("normal" : String) ≠ "late in" := by
  decide

/-- Claim C6 (amended): the late-in threshold used by classification is
`shift_start` plus a hardcoded 15-minute grace, for every settings value:
the `late_in` flag is set exactly when the punch-in is after
`shift_start + 15min` (so 08:07 is normal; 08:16 is late in). -/
theorem C6_late_in_threshold (r : Rec) (sd : List (String × ShiftEntry)) (stg : Settings)
    (st ssTod seTod : Int) (si : ShiftEntry)
    (h1 : r.start_time = some st) (h2 : isSunday r.day = false)
    (h3 : lookupShift sd r.employee_id = some si)
    (h4 : parseStored si.shift_start = some ssTod)
    (h5 : parseStored si.shift_end = some seTod) :
    ∃ res, calculateTimeSpentAndFlag r sd stg = .ok res ∧
      res.late_in = decide (shiftStartDtOf r.day ssTod + 15 * 60 < st) := by
  simp only [calculateTimeSpentAndFlag, h1, h2, h3, h4, h5, Bool.false_eq_true, if_false]
  rcases hen : adjustEnd st r.end_time with _ | e <;> simp only [hen] <;>
    split_ifs <;> exact ⟨_, rfl, rfl⟩

/-- Witness for C6 (amended): punch-in 08:16 (second 29760) is past
`08:00 + 15min` (second 29700), so `late_in` is set. -/
theorem C6_late_in_threshold_witness :
    ∃ res, calculateTimeSpentAndFlag (inputRow "7" 0 (some 29760) (some 61500))
      [("7", sh17)] stgDefault = .ok res ∧ res.late_in = true := by
  obtain ⟨res, hres, hlate⟩ := C6_late_in_threshold
    (inputRow "7" 0 (some 29760) (some 61500)) [("7", sh17)] stgDefault
    29760 28800 61200 sh17 rfl (by decide) (by decide) (by decide) (by decide)
  exact ⟨res, hres, by rw [hlate]; decide⟩

/-- Counterexample to C4: with `shift_cap_type = "er"` (not `"zero"`), a
capped session (single punch 08:10, no checkout, shift 08:00-17:00) still
gets `time_spent = 0` because the source tests `value.lower() in ("zero")`,
which is substring containment in the string `"zero"`, and `"er"` is a
substring of `"zero"`; the claim would require the clipped duration
17:05:00 here. -/
theorem C4_zero_iff_zero_refuted :
    calculateTimeSpentAndFlag (inputRow "7" 0 (some 29400) none)
      [("7", sh17)] { shift_cap_type := "er" } =
      .ok ⟨"0:00:00", true, false, some 90900, "no checkout", false⟩ ∧
      ("er" : String) ≠ "zero" ∧
      formatTd (capDeadlineShift 0 28800 61200 15 8 - 29400) = "17:05:00" := by
  decide

/-- Claim C4 (amended): for a capped session with a resolved shift, over all
string values of `shift_cap_type`, the computed time is zero iff the
lowercased value is a contiguous substring of `"zero"` (e.g. `""`, `"er"`,
`"ZERO"` all zero; `"normal"` does not); otherwise it is the clipped
duration `min(end, cap_deadline) - start`. -/
theorem C4_zeroing_policy_substring (r : Rec) (sd : List (String × ShiftEntry))
    (stg : Settings) (st ssTod seTod : Int) (si : ShiftEntry)
    (h1 : r.start_time = some st) (h2 : isSunday r.day = false)
    (h3 : lookupShift sd r.employee_id = some si)
    (h4 : parseStored si.shift_start = some ssTod)
    (h5 : parseStored si.shift_end = some seTod)
    (hcap : ∀ e, adjustEnd st r.end_time = some e →
      capDeadlineShift r.day ssTod seTod (graceCapOf stg).1 (graceCapOf stg).2 < e) :
    ∃ res, calculateTimeSpentAndFlag r sd stg = .ok res ∧
      res.shift_flag = "no checkout" ∧
      (isSubstrOf (pyLower stg.shift_cap_type) "zero" = true →
        res.time_spent = "0:00:00") ∧
      (isSubstrOf (pyLower stg.shift_cap_type) "zero" = false →
        res.time_spent = formatTd (min ((adjustEnd st r.end_time).getD
            (capDeadlineShift r.day ssTod seTod (graceCapOf stg).1 (graceCapOf stg).2))
            (capDeadlineShift r.day ssTod seTod (graceCapOf stg).1 (graceCapOf stg).2) - st)) := by
  simp only [calculateTimeSpentAndFlag, h1, h2, h3, h4, h5, Bool.false_eq_true, if_false]
  rcases hen : adjustEnd st r.end_time with _ | e
  · simp only [hen]
    by_cases hz : isSubstrOf (pyLower stg.shift_cap_type) "zero" = true
    · rw [if_pos hz]
      exact ⟨_, rfl, rfl, fun _ => rfl, fun hzf => by rw [hz] at hzf; cases hzf⟩
    · rw [if_neg hz]
      exact ⟨_, rfl, rfl, fun hzt => absurd hzt hz, fun _ => rfl⟩
  · have hcape : capDeadlineShift r.day ssTod seTod (graceCapOf stg).1 (graceCapOf stg).2 < e :=
      hcap e hen
    simp only [hen]
    rw [if_pos (by simpa using hcape)]
    by_cases hz : isSubstrOf (pyLower stg.shift_cap_type) "zero" = true
    · rw [if_pos hz]
      exact ⟨_, rfl, rfl, fun _ => rfl, fun hzf => by rw [hz] at hzf; cases hzf⟩
    · rw [if_neg hz]
      exact ⟨_, rfl, rfl, fun hzt => absurd hzt hz, fun _ => rfl⟩

/-- Witness for C4 (amended): `shift_cap_type = "normal"` is not a substring
of `"zero"`, so the capped session (punch-in 08:10, checkout absent) gets
the clipped duration `cap_deadline - start = 17:05:00`. -/
theorem C4_zeroing_policy_substring_witness :
    ∃ res, calculateTimeSpentAndFlag (inputRow "7" 0 (some 29400) none)
      [("7", sh17)] { shift_cap_type := "normal" } = .ok res ∧
      res.time_spent = "17:05:00" := by
  obtain ⟨res, hres, _, _, htime⟩ := C4_zeroing_policy_substring
    (inputRow "7" 0 (some 29400) none) [("7", sh17)] { shift_cap_type := "normal" }
    29400 28800 61200 sh17 rfl (by decide) (by decide) (by decide) (by decide)
    (fun e he => by simp [adjustEnd, inputRow] at he)
  exact ⟨res, hres, by rw [htime (by decide)]; decide⟩

/-- Counterexample to C5: the 22:00-06:00 shift with punches 22:30 (second
81000) and next-day 05:30 (second 106200) does reconcile to one session
with `time_spent = 7h`, but classification flags it `early out`, not
`normal`: the checkout 05:30 precedes the shift end 06:00. -/
theorem C5_midnight_normal_refuted :
    boundaryFun (some shNight) stgDefault = .ok bndNight ∧
    reconcile bndNight [⟨81000, "A"⟩, ⟨106200, "B"⟩] =
      [⟨⟨81000, "A"⟩, some ⟨106200, "B"⟩⟩] ∧
    calculateTimeSpentAndFlag (inputRow "9" 0 (some 81000) (some 106200))
      [("9", shNight)] stgDefault =
      .ok ⟨"07:00:00", false, true, some 106200, "early out", true⟩ ∧
    ("early out" : String) ≠ "normal" := by
  refine ⟨?_, by decide, by decide, by decide⟩
  have p1 : parseStored shNight.shift_start = some 79200 := by decide
  have p2 : parseStored shNight.shift_end = some 21600 := by decide
  simp only [boundaryFun, p1, p2]
  rfl

/-- Claim C5 (amended): the 22:00-06:00 shift with punches at 22:30 and
next-day 05:30 yields exactly one session pairing the two punches, with
`time_spent = 7h00m` - but its status is `early out` (and `late_in` is also
set), since 05:30 is before the shift end 06:00 and 22:30 is past
22:00 + 15min. -/
theorem C5_midnight_crossing_session :
    boundaryFun (some shNight) stgDefault = .ok bndNight ∧
    reconcile bndNight [⟨81000, "A"⟩, ⟨106200, "B"⟩] =
      [⟨⟨81000, "A"⟩, some ⟨106200, "B"⟩⟩] ∧
    ∃ res, calculateTimeSpentAndFlag (inputRow "9" 0 (some 81000) (some 106200))
      [("9", shNight)] stgDefault = .ok res ∧
      res.time_spent = "07:00:00" ∧ res.shift_flag = "early out" := by
  refine ⟨?_, by decide,
    ⟨"07:00:00", false, true, some 106200, "early out", true⟩, by decide, rfl, rfl⟩
  have p1 : parseStored shNight.shift_start = some 79200 := by decide
  have p2 : parseStored shNight.shift_end = some 21600 := by decide
  simp only [boundaryFun, p1, p2]
  rfl

/-- Counterexample to C7: a malformed stored shift time (`"banana"`, as
`get_shift_mappings` stores for an unparseable DB value) makes
classification raise: `pd.to_datetime("banana")` throws an uncaught
`ValueError` in `calculate_time_spent_and_flag`, modelled as `.error ()`.
The session itself is well-formed, so "never raises for any input however
malformed" fails. -/
theorem C7_never_raises_refuted :
    calculateTimeSpentAndFlag (inputRow "7" 0 (some 29400) (some 57600))
      [("7", { shift_name := "x", shift_start := some "banana",
               shift_end := some "17:00:00" })] stgDefault = .error () := by
  decide

/-- Claim C7 (amended): classification returns a result for every session
row - missing start or end, implausible timestamps included - provided the
resolved shift has stored times that are present and parseable (no shift
resolving is also fine); a missing start degrades to `absent`.  Only a
malformed or missing stored shift time raises. -/
theorem C7_no_raise_when_shift_parses (r : Rec) (sd : List (String × ShiftEntry))
    (stg : Settings)
    (hsh : ∀ si, lookupShift sd r.employee_id = some si →
      (∃ t, parseStored si.shift_start = some t) ∧ ∃ t, parseStored si.shift_end = some t) :
    ∃ res, calculateTimeSpentAndFlag r sd stg = .ok res ∧
      (r.start_time = none → res.shift_flag = "absent") := by
  rcases hst : r.start_time with _ | st
  · exact ⟨⟨"0:00:00", false, false, r.end_time, "absent", false⟩,
      by simp only [calculateTimeSpentAndFlag, hst], fun _ => rfl⟩
  · simp only [calculateTimeSpentAndFlag, hst]
    by_cases hsun : isSunday r.day = true
    · simp only [hsun, if_true]
      rcases hen : adjustEnd st r.end_time with _ | e <;> simp only [hen] <;>
        exact ⟨_, rfl, fun h => by simp at h⟩
    · simp only [Bool.not_eq_true] at hsun
      simp only [hsun, Bool.false_eq_true, if_false]
      rcases hls : lookupShift sd r.employee_id with _ | si
      · simp only [hls]
        rcases hen : adjustEnd st r.end_time with _ | e <;> simp only [hen] <;>
          split_ifs <;> exact ⟨_, rfl, fun h => by simp at h⟩
      · obtain ⟨⟨t1, hp1⟩, t2, hp2⟩ := hsh si hls
        simp only [hls, hp1, hp2]
        rcases hen : adjustEnd st r.end_time with _ | e <;> simp only [hen] <;>
          split_ifs <;> exact ⟨_, rfl, fun h => by simp at h⟩

/-- Witness for C7 (amended): a row with no punches at all, against a
well-formed shift mapping, classifies as `absent` without raising. -/
theorem C7_no_raise_when_shift_parses_witness :
    ∃ res, calculateTimeSpentAndFlag (inputRow "7" 0 none none)
      [("7", sh17)] stgDefault = .ok res ∧
      ((inputRow "7" 0 none none).start_time = none → res.shift_flag = "absent") :=
  C7_no_raise_when_shift_parses (inputRow "7" 0 none none) [("7", sh17)] stgDefault
    (fun si h => by
      rw [show lookupShift [("7", sh17)] (inputRow "7" 0 none none).employee_id =
        some sh17 from by decide] at h
      cases h
      exact ⟨⟨28800, by decide⟩, ⟨61200, by decide⟩⟩)

/-- An `if` between two `.ok` results yields one of them. -/
theorem ok_of_ite {b : Bool} {x y res : ClassResult}
    (h : (if b = true then (.ok x : Except Unit ClassResult) else .ok y) = .ok res) :
    res = x ∨ res = y := by
  by_cases hb : b = true
  · rw [if_pos hb] at h; injection h with h2; exact .inl h2.symm
  · rw [if_neg hb] at h; injection h with h2; exact .inr h2.symm

/-- Claim C9: whenever classification flags a session `no checkout`
(capped), the end time written into the record is the cap deadline -
`shift_end + grace + cap_hours` when a shift resolves, `start + cap_hours`
otherwise - and never the raw late checkout, which (when present) lies
strictly past that deadline. -/
theorem C9_capped_end_time_is_cap_deadline (r : Rec) (sd : List (String × ShiftEntry))
    (stg : Settings) (st : Int) (res : ClassResult)
    (h1 : r.start_time = some st)
    (hres : calculateTimeSpentAndFlag r sd stg = .ok res)
    (hfl : res.shift_flag = "no checkout") :
    res.end_time_to_use = some (capDeadlineOf r sd stg st) ∧
    ∀ e, adjustEnd st r.end_time = some e →
      capDeadlineOf r sd stg st < e ∧ res.end_time_to_use ≠ some e := by
  simp only [calculateTimeSpentAndFlag, h1] at hres
  by_cases hsun : isSunday r.day = true
  · simp only [hsun, if_true] at hres
    rcases hen : adjustEnd st r.end_time with _ | e <;> simp only [hen] at hres <;>
      (injection hres with h; subst h; exact absurd hfl (by simp))
  · simp only [Bool.not_eq_true] at hsun
    simp only [hsun, Bool.false_eq_true, if_false] at hres
    rcases hls : lookupShift sd r.employee_id with _ | si
    · have hcd : capDeadlineOf r sd stg st = st + capOnlyOf stg * 3600 := by
        simp only [capDeadlineOf, hls]
      simp only [hls] at hres
      rcases hen : adjustEnd st r.end_time with _ | e
      · simp only [hen, eq_self_iff_true, if_true] at hres
        rcases ok_of_ite hres with rfl | rfl <;>
          exact ⟨by rw [hcd], fun e0 he0 => Option.noConfusion he0⟩
      · simp only [hen] at hres
        by_cases hcap : capOnlyOf stg * 3600 < e - st
        · have hc2 : decide (capOnlyOf stg * 3600 < e - st) = true := by simpa using hcap
          simp only [hc2, eq_self_iff_true, if_true] at hres
          rcases ok_of_ite hres with rfl | rfl <;>
            (refine ⟨by rw [hcd], fun e0 he0 => ?_⟩
             injection he0 with h2
             refine ⟨by rw [hcd]; omega, fun heq => ?_⟩
             injection heq with h3
             omega)
        · have hc2 : decide (capOnlyOf stg * 3600 < e - st) = false := by simpa using hcap
          simp only [hc2, Bool.false_eq_true, if_false] at hres
          injection hres with h
          subst h
          exact absurd (show ("normal" : String) = "no checkout" from hfl) (by decide)
    · rcases hp1 : parseStored si.shift_start with _ | t1
      · simp only [hls, hp1] at hres
        cases hres
      · rcases hp2 : parseStored si.shift_end with _ | t2
        · simp only [hls, hp1, hp2] at hres
          cases hres
        · simp only [hls, hp1, hp2] at hres
          have hcd : capDeadlineOf r sd stg st =
              capDeadlineShift r.day t1 t2 (graceCapOf stg).1 (graceCapOf stg).2 := by
            simp only [capDeadlineOf, hls, hp1, hp2]
          rcases hen : adjustEnd st r.end_time with _ | e
          · simp only [hen, eq_self_iff_true, if_true] at hres
            rcases ok_of_ite hres with rfl | rfl <;>
              exact ⟨by rw [hcd], fun e0 he0 => Option.noConfusion he0⟩
          · simp only [hen] at hres
            by_cases hcap : capDeadlineShift r.day t1 t2 (graceCapOf stg).1
                (graceCapOf stg).2 < e
            · have hc2 : decide (capDeadlineShift r.day t1 t2 (graceCapOf stg).1
                  (graceCapOf stg).2 < e) = true := by simpa using hcap
              simp only [hc2, eq_self_iff_true, if_true] at hres
              rcases ok_of_ite hres with rfl | rfl <;>
                (refine ⟨by rw [hcd], fun e0 he0 => ?_⟩
                 injection he0 with h2
                 refine ⟨by rw [hcd]; omega, fun heq => ?_⟩
                 injection heq with h3
                 omega)
            · have hc2 : decide (capDeadlineShift r.day t1 t2 (graceCapOf stg).1
                  (graceCapOf stg).2 < e) = false := by simpa using hcap
              simp only [hc2, Bool.false_eq_true, if_false] at hres
              injection hres with h
              subst h
              split_ifs at hfl <;>
                first
                | exact absurd (show ("early out" : String) = "no checkout" from hfl) (by decide)
                | exact absurd (show ("late in" : String) = "no checkout" from hfl) (by decide)
                | exact absurd (show ("overtime" : String) = "no checkout" from hfl) (by decide)
                | exact absurd (show ("normal" : String) = "no checkout" from hfl) (by decide)

/-- Witness for C9: a single 08:10 punch with no checkout against the
08:00-17:00 shift is capped; the end time of the record is the cap deadline
01:15 next day (second 90900), not an absent value. -/
theorem C9_capped_end_time_is_cap_deadline_witness :
    (⟨"0:00:00", true, false, some 90900, "no checkout", false⟩ : ClassResult).end_time_to_use =
      some (capDeadlineOf (inputRow "7" 0 (some 29400) none) [("7", sh17)] stgDefault 29400) :=
  (C9_capped_end_time_is_cap_deadline (inputRow "7" 0 (some 29400) none) [("7", sh17)]
    stgDefault 29400 ⟨"0:00:00", true, false, some 90900, "no checkout", false⟩
    rfl (by decide) rfl).1

end ADMS
